/-
Verification of the metadata-merge, dynamic-table, imaging and segmentation
round-trip layer of the roiextractors repository, shallowly embedded in Lean.

Source files embedded:
  roiextractors/extractors/nwbextractors/nwbextractors.py
  segmentationextractors/simaextractor/simasegmentationextractor.py
-/
import Mathlib

set_option autoImplicit false

/-- Python exception kinds raised by the embedded code. -/
inductive PyErr where
  | typeError
  | valueError
  | notImplementedError
  | assertionError
  | keyError
  | zeroDivisionError
deriving DecidableEq, Repr

/-
A model of the Python values flowing through the metadata dictionaries:
scalars (None, bool, int, str), lists and string-keyed dicts.  `PList` and
`PDict` are spelled as their own inductives (rather than `List PVal`) so that
all merge functions below are plain structural recursions.
-/
mutual
inductive PVal where
  | pnone
  | pbool (b : Bool)
  | pint (n : Int)
  | pstr (s : String)
  | plist (xs : PList)
  | pdict (kvs : PDict)
deriving DecidableEq, Repr
inductive PList where
  | nil
  | cons (v : PVal) (rest : PList)
deriving DecidableEq, Repr
inductive PDict where
  | nil
  | cons (k : String) (v : PVal) (rest : PDict)
deriving DecidableEq, Repr
end

/-- Python truthiness of a value (`if metadata_input.get(base_key):`). -/
def truthy : PVal → Bool
  | .pnone => false
  | .pbool b => b
  | .pint n => n != 0
  | .pstr s => s != ""
  | .plist .nil => false
  | .plist (.cons _ _) => true
  | .pdict .nil => false
  | .pdict (.cons _ _ _) => true

/-- `isinstance(v, dict)`. -/
def PVal.isDict : PVal → Bool
  | .pdict _ => true
  | _ => false

/-- `isinstance(v, list)`. -/
def PVal.isList : PVal → Bool
  | .plist _ => true
  | _ => false

/-- `isinstance(v, str)`. -/
def PVal.isStr : PVal → Bool
  | .pstr _ => true
  | _ => false

/-- Neither a dict nor a list: the `else` branch of the merge dispatch. -/
def PVal.isScalar (v : PVal) : Bool := !v.isDict && !v.isList

/-- First-match lookup in a dict, as Python key lookup. -/
def PDict.lookup1 : PDict → String → Option PVal
  | .nil, _ => none
  | .cons k v rest, key => if k = key then some v else rest.lookup1 key

/-- Python `d.get(key)`: `None` when the key is absent. -/
def pget (d : PDict) (key : String) : PVal := (d.lookup1 key).getD .pnone

/-- Python `d.get(key, dflt)`. -/
def pgetD (d : PDict) (key : String) (dflt : PVal) : PVal := (d.lookup1 key).getD dflt

/-- Key list of a dict, in order. -/
def PDict.keys : PDict → List String
  | .nil => []
  | .cons k _ rest => k :: rest.keys

/-- Python `d[key] = v`: replace in place if present, else append. -/
def PDict.set1 : PDict → String → PVal → PDict
  | .nil, key, v => .cons key v .nil
  | .cons k w rest, key, v =>
      if k = key then .cons k v rest else .cons k w (rest.set1 key v)

/-- Length of a Python list. -/
def PList.length : PList → Nat
  | .nil => 0
  | .cons _ rest => rest.length + 1

/-- Indexing into a Python list. -/
def PList.get1 : PList → Nat → Option PVal
  | .nil, _ => none
  | .cons v _, 0 => some v
  | .cons _ rest, n + 1 => rest.get1 n

/-
`nwb_metadata_recursive_update(metadata_base, metadata_input)`
(nwbextractors.py lines 29-45).  The Python function deep-copies the base and,
for every base key whose value in `metadata_input` is truthy, dispatches on the
base value: dict -> recurse, list -> element-wise merge of the first
`min(len(base), len(override))` elements when the override is also a list
(`continue` otherwise), anything else -> replace with the override value.
`.items()` / `.get()` on a non-dict raises, modelled as `Except.error ()`;
element-wise list merging recurses with `nwb_metadata_recursive_update` itself,
so non-dict list elements raise as in Python.
-/
mutual
def nwb_metadata_recursive_update (base input : PVal) : Except Unit PVal :=
  match base with
  | .pdict kvs =>
      match nwbUpdDict kvs input with
      | .ok r => .ok (.pdict r)
      | .error e => .error e
  | _ => .error ()
termination_by structural base
def nwbUpdDict : PDict → PVal → Except Unit PDict
  | .nil, _ => .ok .nil
  | .cons k v rest, input =>
      match input with
      | .pdict inps =>
          match (if truthy (pget inps k) then nwbUpdVal v (pget inps k) else .ok v) with
          | .error e => .error e
          | .ok v' =>
              match nwbUpdDict rest (.pdict inps) with
              | .error e => .error e
              | .ok rest' => .ok (.cons k v' rest')
      | _ => .error ()
termination_by structural kvs _i => kvs
def nwbUpdVal (v iv : PVal) : Except Unit PVal :=
  match v with
  | .pdict d =>
      match nwbUpdDict d iv with
      | .ok r => .ok (.pdict r)
      | .error e => .error e
  | .plist xs =>
      match iv with
      | .plist ys =>
          match zipMergeMin xs ys with
          | .ok zs => .ok (.plist zs)
          | .error e => .error e
      | _ => .ok (.plist xs)
  | _ => .ok iv
termination_by structural v
def zipMergeMin : PList → PList → Except Unit PList
  | xs, .nil => .ok xs
  | .nil, _ => .ok .nil
  | .cons x xs, .cons y ys =>
      match nwb_metadata_recursive_update x y with
      | .error e => .error e
      | .ok x' =>
          match zipMergeMin xs ys with
          | .error e => .error e
          | .ok xs' => .ok (.cons x' xs')
termination_by structural xs _y => xs
end

instance {ε α : Type} [DecidableEq ε] [DecidableEq α] : DecidableEq (Except ε α) := fun x y =>
  match x, y with
  | .ok a, .ok b =>
      if h : a = b then .isTrue (by rw [h]) else .isFalse (fun hh => by cases hh; exact h rfl)
  | .error a, .error b =>
      if h : a = b then .isTrue (by rw [h]) else .isFalse (fun hh => by cases hh; exact h rfl)
  | .ok _, .error _ => .isFalse (fun hh => by cases hh)
  | .error _, .ok _ => .isFalse (fun hh => by cases hh)

/-
`update_dict(d, u)` (nwbextractors.py lines 97-103).  Iterates over the items
of `u`:  a `Mapping` value recurses into `d.get(k, {})` and stores the result
at `d[k]`; any other value is written directly.  The Python function mutates
`d`; the model threads the dict through instead.  When `d` is not a dict and
the loop body runs, Python raises (`d.get` / `d[k] = v` on a non-dict),
modelled as `Except.error ()`; likewise iterating a non-dict `u` raises.
-/
def updItems (d : PVal) (us : PDict) : Except Unit PVal :=
  match us with
  | .nil => .ok d
  | .cons k v rest =>
      match v with
      | .pdict vs =>
          match d with
          | .pdict ds =>
              match updItems (pgetD ds k (.pdict .nil)) vs with
              | .error e => .error e
              | .ok sub => updItems (.pdict (ds.set1 k sub)) rest
          | _ => .error ()
      | _ =>
          match d with
          | .pdict ds => updItems (.pdict (ds.set1 k v)) rest
          | _ => .error ()
termination_by structural us

def update_dict (d u : PVal) : Except Unit PVal :=
  match u with
  | .pdict us => updItems d us
  | _ => .error ()

/-
`set_dynamic_table_property(dynamic_table, ids, row_ids, property_name, values,
index, default_value, description)` (nwbextractors.py lines 52-87).  The table
is modelled as its named columns; `ids` is the table's id list, passed
separately as in the source.  `row_ids` is a Lean `List Int`, so the source's
first check (`row_ids` must be a list of integers) always passes.  The checks
run in source order; an error is returned before any column is touched.
-/
structure DynTable (V : Type) where
  cols : List (String × List V)
deriving DecidableEq, Repr

/-- Does a column with this name exist (`property_name in dynamic_table`)? -/
def DynTable.hasCol {V : Type} (t : DynTable V) (name : String) : Bool :=
  t.cols.any (fun c => c.1 == name)

/-- The loop `for (row_id, value) in zip(row_ids, values): col[ids.index(row_id)] = value`. -/
def writeCells {V : Type} (col : List V) (ids : List Int) (pairs : List (Int × V)) : List V :=
  pairs.foldl (fun c p => c.set (ids.indexOf p.1) p.2) col

def set_dynamic_table_property {V : Type} (ids row_ids : List Int) (property_name : PVal)
    (values : List V) (index : Bool) (default_value : V) (t : DynTable V) :
    Except PyErr (DynTable V) :=
  if row_ids.any (fun i => !(ids.contains i)) then .error .valueError
  else if !property_name.isStr then .error .typeError
  else if row_ids.length != values.length && !index then .error .valueError
  else
    let name := match property_name with | .pstr s => s | _ => ""
    if !index then
      if t.hasCol name then
        .ok ⟨t.cols.map (fun c => if c.1 == name then (c.1, writeCells c.2 ids (row_ids.zip values)) else c)⟩
      else
        .ok ⟨t.cols ++ [(name, writeCells (List.replicate ids.length default_value) ids (row_ids.zip values))]⟩
    else
      if t.hasCol name then .error .notImplementedError
      else .ok ⟨t.cols ++ [(name, values)]⟩

/-
NwbImagingExtractor (nwbextractors.py).  `time_to_frame` (lines 181-182) is
`int((time - self._imaging_start_time) * self.get_sampling_frequency())`;
Python `int()` on a float truncates toward zero.  Times and rates are modelled
as rationals.
-/
def pyTruncInt (x : ℚ) : ℤ := if 0 ≤ x then ⌊x⌋ else ⌈x⌉

structure NwbImagingState where
  imaging_start_time : ℚ
  sampling_frequency : ℚ
deriving DecidableEq

def time_to_frame (s : NwbImagingState) (time : ℚ) : ℤ :=
  pyTruncInt ((time - s.imaging_start_time) * s.sampling_frequency)

/-
The epochs dictionary built in `NwbImagingExtractor.__init__` (lines 166-172):
for each stored epoch row (first tag, start_time, stop_time), the entry maps to
`{'start_frame': time_to_frame(start_time), 'end_frame': time_to_frame(stop_time)}`.
-/
def fill_epochs (s : NwbImagingState) (rows : List (String × ℚ × ℚ)) :
    List (String × ℤ × ℤ) :=
  rows.map (fun r => (r.1, time_to_frame s r.2.1, time_to_frame s r.2.2))

/-
`NwbImagingExtractor.write_imaging(imaging, save_path, nwbfile, metadata)`
(lines 366-443), argument handling only.  The sole mutual-exclusivity check is
`assert save_path is None or nwbfile is None`.  When both are `None` the assert
passes and execution reaches `os.path.exists(save_path)` with `save_path=None`,
which raises `TypeError` in Python 3.  With only `save_path` given, the file is
opened `'r+'` when the path exists and `'w'` otherwise; with only `nwbfile`
given the entities are added to the live handle.
-/
inductive WriteImagingOutcome where
  | filledHandle
  | wrotePath (mode : String)
deriving DecidableEq, Repr

def write_imaging (save_path : Option String) (nwbfile : Option Unit)
    (path_exists : String → Bool) : Except PyErr WriteImagingOutcome :=
  if save_path.isSome && nwbfile.isSome then .error .assertionError
  else
    match nwbfile with
    | some _ => .ok .filledHandle
    | none =>
        match save_path with
        | none => .error .typeError
        | some p => .ok (.wrotePath (if path_exists p then "r+" else "w"))

/-
`NwbImagingExtractor.add_devices(imaging, nwbfile, metadata)` (lines 255-267).
`metadata['Ophys']['Device']` defaults to `[{'name': 'Device'}]` when the key
is absent; each listed device is created only when its name is not already in
`nwbfile.devices`.  The file's device registry is modelled as the list of
device names in creation order.
-/
def add_devices (meta_devices : Option (List String)) (devices : List String) : List String :=
  (meta_devices.getD ["Device"]).foldl
    (fun devs dev => if dev ∈ devs then devs else devs ++ [dev]) devices

/-
`NwbImagingExtractor.add_two_photon_series(imaging, nwbfile, metadata)`
(lines 269-336), acquisition-name handling: the series (with its imaging plane
and optical channel) is created and attached only when
`metadata['Ophys']['TwoPhotonSeries'][0]['name']` (default `'TwoPhotonSeries'`)
is not among the existing acquisition names.
-/
def add_two_photon_series (meta_series_name : Option String) (acquisition : List String) :
    List String :=
  if meta_series_name.getD "TwoPhotonSeries" ∈ acquisition then acquisition
  else acquisition ++ [meta_series_name.getD "TwoPhotonSeries"]

/-
The Fluorescence attach step of `NwbSegmentationExtractor.write_segmentation`
(lines 731-736):

    if 'Flourescence' not in ophys.data_interfaces:
        fluorescence = Fluorescence()
        ophys.add_data_interface(fluorescence)
    else:
        fluorescence = ophys.data_interfaces['Fluorescence']

The membership test uses the misspelled name `'Flourescence'` while the object
attached is named `'Fluorescence'` (the pynwb default).  `ophys` is modelled as
its list of data-interface names and `add_data_interface` as appending the
new interface's name.
-/
def fluorescence_attach (interfaces : List String) : List String :=
  if "Flourescence" ∈ interfaces then interfaces else interfaces ++ ["Fluorescence"]


/-
`NwbSegmentationExtractor.write_segmentation` ROI insertion (lines 716-729):

    roi_ids = segext_obj.get_roi_ids()
    accepted_ids = [1 if k in segext_obj.get_accepted_list() else 0 for k in roi_ids]
    for num, row in enumerate(roi_ids):
        ps.add_row(id=row, image_mask=image_masks[:, :, num],
                   RoiCentroid=roi_locations[num, :], Accepted=accepted_ids[num])

A segmentation model carries its ordered roi ids, accepted ids, and per-ROI
mask/centroid payloads (opaque types `M` and `C`).
-/
structure SegModel (M C : Type) where
  roi_ids : List Int
  accepted_list : List Int
  image_masks : List M
  roi_locations : List C
deriving DecidableEq

/-- One plane-segmentation row as inserted by `ps.add_row`. -/
structure PsRow (M C : Type) where
  id : Int
  image_mask : M
  roiCentroid : C
  accepted : Int
deriving DecidableEq

/-- The rows inserted by the `for num, row in enumerate(roi_ids)` loop, in order. -/
def write_segmentation_rows {M C : Type} [Inhabited M] [Inhabited C] (m : SegModel M C) :
    List (PsRow M C) :=
  m.roi_ids.enum.map (fun p =>
    { id := p.2
      image_mask := m.image_masks.getD p.1 default
      roiCentroid := m.roi_locations.getD p.1 default
      accepted := if p.2 ∈ m.accepted_list then 1 else 0 })

/-
The state `NwbSegmentationExtractor.__init__` (lines 454-546) distills from a
plane-segmentation table: `_roi_idx = np.array(ps.id.data)` (line 516) and
`_accepted_list = ps['Accepted'].data[:]` when an `Accepted` column exists
(lines 496-497), else `None`.
-/
structure NwbSegState where
  roi_idx : List Int
  accepted_flags : Option (List Int)
deriving DecidableEq

/-- Reading back a file whose plane segmentation holds exactly `rows`
(written by `write_segmentation`, so the `Accepted` column exists). -/
def nwb_read_back {M C : Type} (rows : List (PsRow M C)) : NwbSegState :=
  { roi_idx := rows.map (fun r => r.id)
    accepted_flags := some (rows.map (fun r => r.accepted)) }

/-- `np.where(flags == 1)[0].tolist()` : the ascending row positions whose flag is 1. -/
def npWhereAux : List Int → Nat → List Int
  | [], _ => []
  | f :: rest, i => if f = 1 then (i : Int) :: npWhereAux rest (i + 1) else npWhereAux rest (i + 1)

def npWhereEq1 (flags : List Int) : List Int := npWhereAux flags 0

/-- Modelled from the spec: `SegmentationExtractor.get_num_rois` (the abstract
base class is not under src/); the number of ROIs, i.e. the length of the id
sequence (§3: "roi_ids (ordered sequence of unique integer ids)"). -/
def NwbSegState.get_num_rois (s : NwbSegState) : Nat := s.roi_idx.length

/-- `NwbSegmentationExtractor.get_roi_ids` (line 567-568). -/
def NwbSegState.get_roi_ids (s : NwbSegState) : List Int := s.roi_idx

/-- `NwbSegmentationExtractor.get_accepted_list` (lines 551-555). -/
def NwbSegState.get_accepted_list (s : NwbSegState) : List Int :=
  match s.accepted_flags with
  | none => (List.range s.get_num_rois).map Int.ofNat
  | some flags => npWhereEq1 flags

/-- `NwbSegmentationExtractor.get_rejected_list` (lines 557-558):
`[a for a in self.get_roi_ids() if a not in set(self.get_accepted_list())]`. -/
def NwbSegState.get_rejected_list (s : NwbSegState) : List Int :=
  s.get_roi_ids.filter (fun a => decide (a ∉ s.get_accepted_list))

/-
SimaSegmentationExtractor (simasegmentationextractor.py).  `__init__` sets
`total_time = self._tot_exptime_txtractor_read()` which returns `None`
(lines 128-129), and leaves `_roi_ids`, `_accepted_list`, `_no_rois`,
`_samp_freq`, `_num_of_frames` all `None` (lines 62-71).  The shapes the
properties consult are `image_masks.shape[1]` (the ROI count) and
`roi_response.shape[1]` (the frame count).
-/
structure SimaState where
  masks_num_rois : Nat
  response_num_frames : Nat
  total_time : Option ℚ
  roi_ids_opt : Option (List Int)
  accepted_opt : Option (List Int)
  no_rois_opt : Option Nat
  num_frames_opt : Option Nat
deriving DecidableEq

/-- The field state every successful `SimaSegmentationExtractor.__init__` ends in
(lines 47-77): the "not found" attributes are unconditionally `None`. -/
def sima_init (mask_rois resp_frames : Nat) : SimaState :=
  { masks_num_rois := mask_rois
    response_num_frames := resp_frames
    total_time := none
    roi_ids_opt := none
    accepted_opt := none
    no_rois_opt := none
    num_frames_opt := none }

/-- `SimaSegmentationExtractor.no_rois` (lines 148-154). -/
def SimaState.no_rois (s : SimaState) : Nat := s.no_rois_opt.getD s.masks_num_rois

/-- `SimaSegmentationExtractor.roi_idx` (lines 156-161). -/
def SimaState.roi_idx (s : SimaState) : List Int :=
  match s.roi_ids_opt with
  | none => (List.range s.no_rois).map Int.ofNat
  | some l => l

/-- `SimaSegmentationExtractor.accepted_list` (lines 163-168). -/
def SimaState.accepted_list (s : SimaState) : List Int :=
  match s.accepted_opt with
  | none => (List.range s.no_rois).map Int.ofNat
  | some l => l

/-- `SimaSegmentationExtractor.rejected_list` (lines 170-172):
`[a for a in range(self.no_rois) if a not in set(self.accepted_list)]`. -/
def SimaState.rejected_list (s : SimaState) : List Int :=
  ((List.range s.no_rois).map Int.ofNat).filter (fun a => decide (a ∉ s.accepted_list))

/-- `SimaSegmentationExtractor.get_roi_ids` (lines 204-205). -/
def SimaState.get_roi_ids (s : SimaState) : List Int := s.roi_idx

/-- `SimaSegmentationExtractor.num_of_frames` (lines 185-191). -/
def SimaState.num_of_frames (s : SimaState) : Nat :=
  s.num_frames_opt.getD s.response_num_frames

/-- `SimaSegmentationExtractor.samp_freq` (lines 193-197):
`nframes / time` where `time = self.total_time`.  Dividing an int by `None`
raises `TypeError`; dividing by zero raises `ZeroDivisionError`. -/
def SimaState.samp_freq (s : SimaState) : Except PyErr ℚ :=
  match s.total_time with
  | none => .error .typeError
  | some t => if t = 0 then .error .zeroDivisionError else .ok (s.num_of_frames / t)

/-- `SimaSegmentationExtractor.get_sampling_frequency` (lines 219-220). -/
def SimaState.get_sampling_frequency (s : SimaState) : Except PyErr ℚ := s.samp_freq

/-! ### Helper lemmas -/

lemma attach_fold_mem_iff (names devs : List String) (x : String) :
    x ∈ names.foldl (fun ds d => if d ∈ ds then ds else ds ++ [d]) devs ↔ x ∈ devs ∨ x ∈ names := by
  induction names generalizing devs with
  | nil => simp
  | cons n ns ih =>
      simp only [List.foldl_cons]
      by_cases h : n ∈ devs
      · rw [if_pos h, ih]
        constructor
        · rintro (hd | hn)
          · exact Or.inl hd
          · exact Or.inr (List.mem_cons_of_mem _ hn)
        · rintro (hd | hn)
          · exact Or.inl hd
          · rcases List.mem_cons.mp hn with rfl | hn'
            · exact Or.inl h
            · exact Or.inr hn'
      · rw [if_neg h, ih]
        simp only [List.mem_append, List.mem_singleton, List.mem_cons]
        tauto

lemma attach_fold_noop (names devs : List String) (h : ∀ n ∈ names, n ∈ devs) :
    names.foldl (fun ds d => if d ∈ ds then ds else ds ++ [d]) devs = devs := by
  induction names with
  | nil => rfl
  | cons n ns ih =>
      simp only [List.foldl_cons]
      rw [if_pos (h n (List.mem_cons_self n ns))]
      exact ih (fun m hm => h m (List.mem_cons_of_mem _ hm))

/-! ### Claim theorems -/

/-- C10: for every successfully constructed `SimaSegmentationExtractor`,
`get_sampling_frequency()` raises: `total_time` is unconditionally `None`, so
`samp_freq` computes `nframes / None`, a `TypeError`. -/
theorem sima_sampling_frequency_always_raises (mask_rois resp_frames : Nat) :
    (sima_init mask_rois resp_frames).get_sampling_frequency = .error .typeError := rfl

/-- C8 counterexample: with neither `save_path` nor `nwbfile` supplied, the
mutual-exclusivity assert (`save_path is None or nwbfile is None`) does not
fire — the call is not rejected by the precondition check, contradicting the
claim that it fails immediately in that case too. -/
theorem write_imaging_neither_no_assert :
    ¬ (write_imaging none none (fun _ => false) = .error .assertionError) := by decide

/-- C8 (amended): `write_imaging` fails immediately with the assertion only
when both `save_path` and `nwbfile` are supplied; with neither supplied the
precondition passes and the call fails later, with a `TypeError` from
`os.path.exists(None)`; with exactly one supplied it proceeds. -/
theorem write_imaging_exclusivity (path_exists : String → Bool) :
    (∀ p : String, write_imaging (some p) (some ()) path_exists = .error .assertionError)
    ∧ write_imaging none none path_exists = .error .typeError
    ∧ (∀ p : String, write_imaging (some p) none path_exists
        = .ok (.wrotePath (if path_exists p then "r+" else "w")))
    ∧ write_imaging none (some ()) path_exists = .ok .filledHandle :=
  ⟨fun _ => rfl, rfl, fun _ => rfl, rfl⟩

/-- C7 counterexample: the read path converts times with Python `int()`
(truncation toward zero), not `round`: at start time 0, rate 1 Hz and epoch
time 0.9 s the code yields frame 0 while `round((0.9 - 0) * 1)` is 1. -/
theorem time_to_frame_not_round :
    ¬ (time_to_frame ⟨0, 1⟩ (9/10) = round (((9/10 : ℚ) - 0) * 1)) := by
  have e : (((9:ℚ)/10 - 0) * 1) = 9/10 := by norm_num
  have h1 : time_to_frame ⟨0, 1⟩ (9/10) = 0 := by
    show pyTruncInt (((9:ℚ)/10 - 0) * 1) = 0
    rw [e]
    unfold pyTruncInt
    rw [if_pos (by norm_num : (0:ℚ) ≤ 9/10)]
    rw [Int.floor_eq_iff]
    norm_num
  have h2 : round (((9:ℚ)/10 - 0) * 1) = 1 := by
    rw [e, round_eq, Int.floor_eq_iff]
    norm_num
  rw [h1, h2]
  decide

/-- C7 (amended): on the imaging read path every stored epoch's start and stop
times are converted to frame indices by
`frame = int((time - start_time_of_first_frame) * sampling_frequency)`, i.e.
truncation toward zero (Python `int()`), not `round`. -/
theorem fill_epochs_truncation (s : NwbImagingState) (rows : List (String × ℚ × ℚ)) (i : Nat) :
    (fill_epochs s rows)[i]? = rows[i]?.map
      (fun r => (r.1, pyTruncInt ((r.2.1 - s.imaging_start_time) * s.sampling_frequency),
                 pyTruncInt ((r.2.2 - s.imaging_start_time) * s.sampling_frequency))) := by
  simp [fill_epochs, time_to_frame]

/-- C4: the device and two-photon-series attach steps are idempotent, but the
Fluorescence attach step of `write_segmentation` is not: its reuse check tests
the misspelled name `'Flourescence'` while the attached interface is named
`'Fluorescence'`, so a second run over the same module misses the existing
interface and attaches a second one instead of reusing it. -/
theorem attach_idempotence_fluorescence_bug :
    (∀ (meta_devices : Option (List String)) (devices : List String),
       add_devices meta_devices (add_devices meta_devices devices) = add_devices meta_devices devices)
    ∧ (∀ (name : Option String) (acq : List String),
       add_two_photon_series name (add_two_photon_series name acq) = add_two_photon_series name acq)
    ∧ fluorescence_attach (fluorescence_attach []) = ["Fluorescence", "Fluorescence"] := by
  refine ⟨fun meta devs => ?_, fun name acq => ?_, by decide⟩
  · exact attach_fold_noop _ _ (fun n hn => (attach_fold_mem_iff _ _ _).mpr (Or.inr hn))
  · simp only [add_two_photon_series]
    by_cases h : (name.getD "TwoPhotonSeries") ∈ acq <;> simp [h]

/-- C5 counterexample: with `row_ids` not a subset of `ids` and a non-string
`property_name`, the subset check fires first and the call raises `ValueError`,
not the `TypeError` the claim promises whenever the name is not a string. -/
theorem set_dynamic_table_property_typeerror_cex :
    set_dynamic_table_property (V := Int) [0] [5] (.pint 3) [] false 0 ⟨[]⟩ = .error .valueError
    ∧ ¬ (set_dynamic_table_property (V := Int) [0] [5] (.pint 3) [] false 0 ⟨[]⟩
          = .error .typeError) := by
  constructor <;> decide

/-- C5 (amended): the checks of `set_dynamic_table_property` run in source
order, each returning before any table mutation: a `row_ids` member outside
`ids` yields `ValueError`; with the subset check passed, a non-string
`property_name` yields `TypeError`; with both passed, `index=False` and
`len(row_ids) != len(values)` yields `ValueError`. -/
theorem set_dynamic_table_property_check_order {V : Type} (ids row_ids : List Int)
    (name : PVal) (values : List V) (index : Bool) (default_value : V) (t : DynTable V) :
    (row_ids.any (fun i => !(ids.contains i)) = true →
       set_dynamic_table_property ids row_ids name values index default_value t
         = .error .valueError)
    ∧ (row_ids.any (fun i => !(ids.contains i)) = false → name.isStr = false →
       set_dynamic_table_property ids row_ids name values index default_value t
         = .error .typeError)
    ∧ (row_ids.any (fun i => !(ids.contains i)) = false → name.isStr = true → index = false →
       row_ids.length ≠ values.length →
       set_dynamic_table_property ids row_ids name values index default_value t
         = .error .valueError) := by
  refine ⟨fun h => ?_, fun h1 h2 => ?_, fun h1 h2 h3 h4 => ?_⟩
  · unfold set_dynamic_table_property
    rw [if_pos h]
  · unfold set_dynamic_table_property
    rw [if_neg (by simp only [h1]; decide), if_pos (by simp only [h2]; decide)]
  · unfold set_dynamic_table_property
    rw [if_neg (by simp only [h1]; decide), if_neg (by simp only [h2]; decide),
        if_pos (by simp only [h3, Bool.not_false, Bool.and_true, bne_iff_ne]; exact h4)]

/-- C5 witness: the three error branches, each reached at a concrete call. -/
theorem set_dynamic_table_property_check_order_witness :
    set_dynamic_table_property (V := Int) [0] [5] (.pstr "p") [] false 0 ⟨[]⟩
      = .error .valueError
    ∧ set_dynamic_table_property (V := Int) [0] [0] (.pint 3) [0] false 0 ⟨[]⟩
      = .error .typeError
    ∧ set_dynamic_table_property (V := Int) [0] [0] (.pstr "p") [] false 0 ⟨[]⟩
      = .error .valueError :=
  ⟨(set_dynamic_table_property_check_order _ _ _ _ _ _ _).1 (by decide),
   (set_dynamic_table_property_check_order _ _ _ _ _ _ _).2.1 (by decide) (by decide),
   (set_dynamic_table_property_check_order _ _ _ _ _ _ _).2.2 (by decide) (by decide) rfl
     (by decide)⟩

/-! ### Merge-engine lemmas -/

lemma nwbUpdDict_cons_ok {k : String} {v : PVal} {rest inps out : PDict}
    (h : nwbUpdDict (.cons k v rest) (.pdict inps) = .ok out) :
    ∃ v' rest', (if truthy (pget inps k) then nwbUpdVal v (pget inps k) else .ok v) = .ok v'
      ∧ nwbUpdDict rest (.pdict inps) = .ok rest' ∧ out = .cons k v' rest' := by
  simp only [nwbUpdDict] at h
  cases hv : (if truthy (pget inps k) then nwbUpdVal v (pget inps k) else .ok v) with
  | error e => rw [hv] at h; exact absurd h (by simp)
  | ok v' =>
      rw [hv] at h
      cases hr : nwbUpdDict rest (.pdict inps) with
      | error e => rw [hr] at h; exact absurd h (by simp)
      | ok rest' =>
          rw [hr] at h
          simp only [Except.ok.injEq] at h
          exact ⟨v', rest', rfl, rfl, h.symm⟩

lemma nwbUpdDict_keys : ∀ (kvs : PDict) (input : PVal) (out : PDict),
    nwbUpdDict kvs input = .ok out → out.keys = kvs.keys
  | .nil, _, out, h => by
      simp only [nwbUpdDict, Except.ok.injEq] at h; cases h; rfl
  | .cons k v rest, .pdict inps, out, h => by
      obtain ⟨v', rest', _, hr, rfl⟩ := nwbUpdDict_cons_ok h
      simp [PDict.keys, nwbUpdDict_keys rest (.pdict inps) rest' hr]
  | .cons _ _ _, .pnone, _, h => absurd h (by simp [nwbUpdDict])
  | .cons _ _ _, .pbool _, _, h => absurd h (by simp [nwbUpdDict])
  | .cons _ _ _, .pint _, _, h => absurd h (by simp [nwbUpdDict])
  | .cons _ _ _, .pstr _, _, h => absurd h (by simp [nwbUpdDict])
  | .cons _ _ _, .plist _, _, h => absurd h (by simp [nwbUpdDict])

lemma nwbUpdDict_lookup_falsy : ∀ (kvs inps out : PDict) (k : String),
    truthy (pget inps k) = false → nwbUpdDict kvs (.pdict inps) = .ok out →
    out.lookup1 k = kvs.lookup1 k
  | .nil, _, out, k, _, h => by
      simp only [nwbUpdDict, Except.ok.injEq] at h; cases h; rfl
  | .cons k' v rest, inps, out, k, hf, h => by
      obtain ⟨v', rest', hv, hr, rfl⟩ := nwbUpdDict_cons_ok h
      by_cases hk : k' = k
      · subst hk
        rw [hf] at hv
        simp only [Bool.false_eq_true, if_false, Except.ok.injEq] at hv
        subst hv
        simp [PDict.lookup1]
      · simp [PDict.lookup1, hk, nwbUpdDict_lookup_falsy rest inps rest' k hf hr]

lemma nwbUpdDict_lookup_truthy : ∀ (kvs inps out : PDict) (k : String) (v : PVal),
    nwbUpdDict kvs (.pdict inps) = .ok out → kvs.lookup1 k = some v →
    truthy (pget inps k) = true →
    ∃ w, nwbUpdVal v (pget inps k) = .ok w ∧ out.lookup1 k = some w
  | .nil, _, _, k, v, _, hl, _ => by simp [PDict.lookup1] at hl
  | .cons k' v0 rest, inps, out, k, v, h, hl, ht => by
      obtain ⟨v', rest', hv, hr, rfl⟩ := nwbUpdDict_cons_ok h
      by_cases hk : k' = k
      · subst hk
        simp [PDict.lookup1] at hl
        subst hl
        rw [ht] at hv
        simp only [if_true] at hv
        exact ⟨v', hv, by simp [PDict.lookup1]⟩
      · simp only [PDict.lookup1, if_neg hk] at hl
        obtain ⟨w, hw, ho⟩ := nwbUpdDict_lookup_truthy rest inps rest' k v hr hl ht
        exact ⟨w, hw, by simp [PDict.lookup1, hk, ho]⟩

lemma nwbUpdVal_scalar {v iv : PVal} (h : v.isScalar = true) : nwbUpdVal v iv = .ok iv := by
  cases v with
  | pdict d => simp [PVal.isScalar, PVal.isDict] at h
  | plist xs => simp [PVal.isScalar, PVal.isList] at h
  | pnone => rfl
  | pbool b => rfl
  | pint n => rfl
  | pstr s => rfl

lemma nwbUpdVal_dict {d : PDict} {iv : PVal} :
    nwbUpdVal (.pdict d) iv = nwb_metadata_recursive_update (.pdict d) iv := by
  simp only [nwbUpdVal, nwb_metadata_recursive_update]

lemma nwbUpdVal_list_nonlist {xs : PList} {iv : PVal} (h : iv.isList = false) :
    nwbUpdVal (.plist xs) iv = .ok (.plist xs) := by
  cases iv with
  | plist ys => simp [PVal.isList] at h
  | pnone => rfl
  | pbool b => rfl
  | pint n => rfl
  | pstr s => rfl
  | pdict d => rfl

lemma zipMergeMin_cons_ok {x y : PVal} {xs ys zs : PList}
    (h : zipMergeMin (.cons x xs) (.cons y ys) = .ok zs) :
    ∃ x' xs', nwb_metadata_recursive_update x y = .ok x' ∧ zipMergeMin xs ys = .ok xs'
      ∧ zs = .cons x' xs' := by
  simp only [zipMergeMin] at h
  cases hm : nwb_metadata_recursive_update x y with
  | error e => rw [hm] at h; exact absurd h (by simp)
  | ok x' =>
      rw [hm] at h
      cases hz : zipMergeMin xs ys with
      | error e => rw [hz] at h; exact absurd h (by simp)
      | ok xs' =>
          rw [hz] at h
          simp only [Except.ok.injEq] at h
          exact ⟨x', xs', rfl, rfl, h.symm⟩

lemma zipMergeMin_length : ∀ (xs ys zs : PList),
    zipMergeMin xs ys = .ok zs → zs.length = xs.length
  | xs, .nil, zs, h => by
      simp only [zipMergeMin, Except.ok.injEq] at h
      cases h; rfl
  | .nil, .cons _ _, zs, h => by
      simp only [zipMergeMin, Except.ok.injEq] at h
      cases h; rfl
  | .cons x xs, .cons y ys, zs, h => by
      obtain ⟨x', xs', _, hz, rfl⟩ := zipMergeMin_cons_ok h
      simp [PList.length, zipMergeMin_length xs ys xs' hz]

lemma zipMergeMin_get_ge : ∀ (xs ys zs : PList) (i : Nat),
    zipMergeMin xs ys = .ok zs → min xs.length ys.length ≤ i → zs.get1 i = xs.get1 i
  | xs, .nil, zs, i, h, _ => by
      simp only [zipMergeMin, Except.ok.injEq] at h
      cases h; rfl
  | .nil, .cons _ _, zs, i, h, _ => by
      simp only [zipMergeMin, Except.ok.injEq] at h
      cases h; rfl
  | .cons x xs, .cons y ys, zs, 0, h, hmin => by
      simp [PList.length, Nat.succ_min_succ] at hmin
  | .cons x xs, .cons y ys, zs, j + 1, h, hmin => by
      obtain ⟨x', xs', _, hz, rfl⟩ := zipMergeMin_cons_ok h
      simp only [PList.get1]
      apply zipMergeMin_get_ge xs ys xs' j hz
      simp only [PList.length, Nat.succ_min_succ] at hmin
      omega

lemma zipMergeMin_get_lt : ∀ (xs ys zs : PList) (i : Nat) (x y : PVal),
    zipMergeMin xs ys = .ok zs → xs.get1 i = some x → ys.get1 i = some y →
    ∃ z, nwb_metadata_recursive_update x y = .ok z ∧ zs.get1 i = some z
  | .nil, _, _, i, x, y, _, hx, _ => by simp [PList.get1] at hx
  | .cons _ _, .nil, _, i, x, y, _, _, hy => by simp [PList.get1] at hy
  | .cons x0 xs, .cons y0 ys, zs, 0, x, y, h, hx, hy => by
      obtain ⟨x', xs', hm, hz, rfl⟩ := zipMergeMin_cons_ok h
      simp only [PList.get1, Option.some.injEq] at hx hy
      subst hx; subst hy
      exact ⟨x', hm, by simp [PList.get1]⟩
  | .cons x0 xs, .cons y0 ys, zs, j + 1, x, y, h, hx, hy => by
      obtain ⟨x', xs', hm, hz, rfl⟩ := zipMergeMin_cons_ok h
      simp only [PList.get1] at hx hy ⊢
      exact zipMergeMin_get_lt xs ys xs' j x y hz hx hy

lemma set1_lookup_absent : ∀ (ds : PDict) (k : String) (v : PVal),
    ds.lookup1 k = none → (ds.set1 k v).lookup1 k = some v
  | .nil, k, v, _ => by simp [PDict.set1, PDict.lookup1]
  | .cons k' w rest, k, v, h => by
      by_cases hk : k' = k
      · subst hk; simp [PDict.lookup1] at h
      · simp only [PDict.lookup1, if_neg hk] at h
        simp only [PDict.set1, if_neg hk, PDict.lookup1]
        exact set1_lookup_absent rest k v h

/-- C9: `nwb_metadata_recursive_update` skips an override entry whenever its
value is falsy: 0, the empty string, the empty dict, the empty list, False and
None are all falsy, and for any base key whose override value is falsy the
merged result keeps the base value unchanged even though the override supplies
the key. -/
theorem nwb_metadata_recursive_update_falsy_skip :
    (truthy (.pint 0) = false ∧ truthy (.pstr "") = false ∧ truthy (.pdict .nil) = false
     ∧ truthy (.plist .nil) = false ∧ truthy (.pbool false) = false ∧ truthy .pnone = false)
    ∧ (∀ (kvs inps out : PDict) (k : String), truthy (pget inps k) = false →
        nwbUpdDict kvs (.pdict inps) = .ok out → out.lookup1 k = kvs.lookup1 k)
    ∧ (∀ (kvs inps : PDict) (out : PVal) (k : String), truthy (pget inps k) = false →
        nwb_metadata_recursive_update (.pdict kvs) (.pdict inps) = .ok out →
        ∀ out', out = .pdict out' → out'.lookup1 k = kvs.lookup1 k) := by
  refine ⟨⟨rfl, rfl, rfl, rfl, rfl, rfl⟩,
    fun kvs inps out k hf h => nwbUpdDict_lookup_falsy kvs inps out k hf h, ?_⟩
  intro kvs inps out k hf h out' ho
  subst ho
  simp only [nwb_metadata_recursive_update] at h
  cases hd : nwbUpdDict kvs (.pdict inps) with
  | error e => rw [hd] at h; exact absurd h (by simp)
  | ok r =>
      rw [hd] at h
      simp only [Except.ok.injEq, PVal.pdict.injEq] at h
      subst h
      exact nwbUpdDict_lookup_falsy kvs inps r k hf hd

/-- C9 witness: merging base {a: 1} with override {a: 0} keeps a = 1, because
0 is falsy. -/
theorem nwb_metadata_recursive_update_falsy_skip_witness :
    truthy (pget (PDict.cons "a" (PVal.pint 0) PDict.nil) "a") = false
    ∧ (PDict.cons "a" (PVal.pint 1) PDict.nil).lookup1 "a"
        = (PDict.cons "a" (PVal.pint 1) PDict.nil).lookup1 "a" :=
  ⟨by decide,
   nwb_metadata_recursive_update_falsy_skip.2.2
     (.cons "a" (.pint 1) .nil) (.cons "a" (.pint 0) .nil)
     (.pdict (.cons "a" (.pint 1) .nil)) "a" (by decide) rfl
     (.cons "a" (.pint 1) .nil) rfl⟩

/-- C1 counterexample: the claim's unconditional "a scalar value is replaced by
the override's value" fails: the override value 0 for key a is falsy and is
skipped, so merge({a: 1}, {a: 0}) = {a: 1}, not {a: 0}. -/
theorem nwb_metadata_recursive_update_falsy_scalar_kept :
    nwb_metadata_recursive_update (.pdict (.cons "a" (.pint 1) .nil))
        (.pdict (.cons "a" (.pint 0) .nil))
      = .ok (.pdict (.cons "a" (.pint 1) .nil))
    ∧ ¬ (nwb_metadata_recursive_update (.pdict (.cons "a" (.pint 1) .nil))
          (.pdict (.cons "a" (.pint 0) .nil))
        = .ok (.pdict (.cons "a" (.pint 0) .nil))) :=
  ⟨rfl, by decide⟩

/-- C1 (amended): merge_recursive returns a new tree whose keys are exactly the
base's keys in order (override-only keys are ignored); for every base key whose
override value is truthy: a nested-dict base value is merged recursively, a
list base value is merged element-wise up to min(len(base), len(override)) with
trailing elements left alone and the base length kept when the override value
is also a list (and is kept whole otherwise), and a scalar base value is
replaced by the override's value; a base key whose override value is falsy (or
absent) keeps the base value; and
merge_recursive({a:1, b:{c:2}}, {a:9, d:5}) = {a:9, b:{c:2}}. -/
theorem nwb_metadata_recursive_update_truthy_overlay :
    (nwb_metadata_recursive_update
        (.pdict (.cons "a" (.pint 1) (.cons "b" (.pdict (.cons "c" (.pint 2) .nil)) .nil)))
        (.pdict (.cons "a" (.pint 9) (.cons "d" (.pint 5) .nil)))
      = .ok (.pdict (.cons "a" (.pint 9) (.cons "b" (.pdict (.cons "c" (.pint 2) .nil)) .nil))))
    ∧ (∀ (kvs : PDict) (input : PVal) (out : PDict),
        nwbUpdDict kvs input = .ok out → out.keys = kvs.keys)
    ∧ (∀ (kvs inps out : PDict) (k : String) (v : PVal),
        nwbUpdDict kvs (.pdict inps) = .ok out → kvs.lookup1 k = some v →
        truthy (pget inps k) = true →
        ((v.isScalar = true → out.lookup1 k = some (pget inps k))
         ∧ (∀ d, v = .pdict d →
              ∃ w, nwb_metadata_recursive_update v (pget inps k) = .ok w
                ∧ out.lookup1 k = some w)
         ∧ (∀ xs ys, v = .plist xs → pget inps k = .plist ys →
              ∃ zs, out.lookup1 k = some (.plist zs) ∧ zs.length = xs.length
                ∧ (∀ i, min xs.length ys.length ≤ i → zs.get1 i = xs.get1 i)
                ∧ (∀ i x y, xs.get1 i = some x → ys.get1 i = some y →
                     ∃ z, nwb_metadata_recursive_update x y = .ok z ∧ zs.get1 i = some z))
         ∧ (∀ xs, v = .plist xs → (pget inps k).isList = false →
              out.lookup1 k = some v)))
    ∧ (∀ (kvs inps out : PDict) (k : String), truthy (pget inps k) = false →
        nwbUpdDict kvs (.pdict inps) = .ok out → out.lookup1 k = kvs.lookup1 k) := by
  refine ⟨rfl, fun kvs input out h => nwbUpdDict_keys kvs input out h, ?_,
    fun kvs inps out k hf h => nwbUpdDict_lookup_falsy kvs inps out k hf h⟩
  intro kvs inps out k v h hl ht
  obtain ⟨w, hw, ho⟩ := nwbUpdDict_lookup_truthy kvs inps out k v h hl ht
  refine ⟨?_, ?_, ?_, ?_⟩
  · intro hs
    rw [nwbUpdVal_scalar hs] at hw
    simp only [Except.ok.injEq] at hw
    subst hw
    exact ho
  · intro d hd
    subst hd
    rw [nwbUpdVal_dict] at hw
    exact ⟨w, hw, ho⟩
  · intro xs ys hv hiv
    subst hv
    rw [hiv] at hw
    simp only [nwbUpdVal] at hw
    cases hz : zipMergeMin xs ys with
    | error e => rw [hz] at hw; exact absurd hw (by simp)
    | ok zs =>
        rw [hz] at hw
        simp only [Except.ok.injEq] at hw
        subst hw
        exact ⟨zs, ho, zipMergeMin_length xs ys zs hz,
          fun i hi => zipMergeMin_get_ge xs ys zs i hz hi,
          fun i x y hx hy => zipMergeMin_get_lt xs ys zs i x y hz hx hy⟩
  · intro xs hv hnl
    subst hv
    rw [nwbUpdVal_list_nonlist hnl] at hw
    simp only [Except.ok.injEq] at hw
    subst hw
    exact ho

/-- C1 witness: merging {a: 1} with {a: 9} replaces the truthy scalar, and the
result's keys are the base's keys. -/
theorem nwb_metadata_recursive_update_truthy_overlay_witness :
    (PDict.cons "a" (PVal.pint 9) PDict.nil).lookup1 "a"
      = some (pget (PDict.cons "a" (PVal.pint 9) PDict.nil) "a")
    ∧ PDict.keys (PDict.cons "a" (PVal.pint 9) PDict.nil)
      = PDict.keys (PDict.cons "a" (PVal.pint 1) PDict.nil) :=
  ⟨(nwb_metadata_recursive_update_truthy_overlay.2.2.1
      (.cons "a" (.pint 1) .nil) (.cons "a" (.pint 9) .nil) (.cons "a" (.pint 9) .nil)
      "a" (.pint 1) rfl rfl (by decide)).1 (by decide),
   nwb_metadata_recursive_update_truthy_overlay.2.1
     (.cons "a" (.pint 1) .nil) (.pdict (.cons "a" (.pint 9) .nil))
     (.cons "a" (.pint 9) .nil) rfl⟩

/-- C6 counterexample: when the base value is a scalar and the update value is
a (non-empty) mapping, `update_dict` does not write the update value directly
as the claim states — it recurses into the scalar and raises (`d[k] = v` on a
non-dict): deep_update({a: 1}, {a: {b: 2}}) raises instead of
returning {a: {b: 2}}. -/
theorem update_dict_scalar_vs_mapping_cex :
    update_dict (.pdict (.cons "a" (.pint 1) .nil))
        (.pdict (.cons "a" (.pdict (.cons "b" (.pint 2) .nil)) .nil)) = .error ()
    ∧ ¬ (update_dict (.pdict (.cons "a" (.pint 1) .nil))
          (.pdict (.cons "a" (.pdict (.cons "b" (.pint 2) .nil)) .nil))
        = .ok (.pdict (.cons "a" (.pdict (.cons "b" (.pint 2) .nil)) .nil))) :=
  ⟨rfl, by decide⟩

/-- C6 (amended): deep_update folds the update's entries into the base (the
Python function mutates the base in place; the model threads it): an update
entry whose value is a mapping recurses into the base value at that key
(a missing key is treated as the empty mapping) and stores the result — but if
the base value at that key is present, not a mapping, and the update mapping is
non-empty, the call raises instead of writing; an update entry whose value is
not a mapping is written directly; keys absent from the base are inserted; and
deep_update({a:1, b:{c:2}}, {a:9, d:5}) = {a:9, b:{c:2}, d:5}. -/
theorem update_dict_deep_update :
    (update_dict
        (.pdict (.cons "a" (.pint 1) (.cons "b" (.pdict (.cons "c" (.pint 2) .nil)) .nil)))
        (.pdict (.cons "a" (.pint 9) (.cons "d" (.pint 5) .nil)))
      = .ok (.pdict (.cons "a" (.pint 9) (.cons "b" (.pdict (.cons "c" (.pint 2) .nil))
          (.cons "d" (.pint 5) .nil)))))
    ∧ (∀ (ds : PDict) (k : String) (b c : PDict), ds.lookup1 k = some (.pdict b) →
        ((∀ sub, update_dict (.pdict b) (.pdict c) = .ok sub →
            update_dict (.pdict ds) (.pdict (.cons k (.pdict c) .nil))
              = .ok (.pdict (ds.set1 k sub)))
         ∧ (∀ e, update_dict (.pdict b) (.pdict c) = .error e →
            update_dict (.pdict ds) (.pdict (.cons k (.pdict c) .nil)) = .error e)))
    ∧ (∀ (ds : PDict) (k : String) (v : PVal), v.isDict = false →
        update_dict (.pdict ds) (.pdict (.cons k v .nil)) = .ok (.pdict (ds.set1 k v)))
    ∧ (∀ (ds : PDict) (k : String) (v : PVal), ds.lookup1 k = none →
        (ds.set1 k v).lookup1 k = some v)
    ∧ (∀ (ds : PDict) (k k2 : String) (w v2 : PVal) (r2 : PDict),
        ds.lookup1 k = some w → w.isDict = false →
        update_dict (.pdict ds) (.pdict (.cons k (.pdict (.cons k2 v2 r2)) .nil))
          = .error ()) := by
  refine ⟨rfl, ?_, ?_, fun ds k v h => set1_lookup_absent ds k v h, ?_⟩
  · intro ds k b c hl
    have hget : pgetD ds k (.pdict .nil) = .pdict b := by simp [pgetD, hl]
    constructor
    · intro sub hsub
      simp only [update_dict] at hsub ⊢
      simp only [updItems, hget, hsub]
    · intro e hsub
      simp only [update_dict] at hsub ⊢
      simp only [updItems, hget, hsub]
  · intro ds k v h
    cases v with
    | pdict d => simp [PVal.isDict] at h
    | pnone => rfl
    | pbool b => rfl
    | pint n => rfl
    | pstr s => rfl
    | plist xs => rfl
  · intro ds k k2 w v2 r2 hl hw
    have hget : pgetD ds k (.pdict .nil) = w := by simp [pgetD, hl]
    simp only [update_dict, updItems, hget]
    cases v2 <;> cases w <;> simp_all [PVal.isDict, updItems]

/-- C6 witness: a nested-mapping entry recursing ({a:{x:1}} updated with
{a:{x:2}}), a scalar entry written directly, and the raising case, each at a
concrete input. -/
theorem update_dict_deep_update_witness :
    update_dict (.pdict (.cons "a" (.pdict (.cons "x" (.pint 1) .nil)) .nil))
        (.pdict (.cons "a" (.pdict (.cons "x" (.pint 2) .nil)) .nil))
      = .ok (.pdict ((PDict.cons "a" (.pdict (.cons "x" (.pint 1) .nil)) .nil).set1 "a"
          (.pdict (.cons "x" (.pint 2) .nil))))
    ∧ update_dict (.pdict (.cons "a" (.pint 1) .nil)) (.pdict (.cons "b" (.pint 7) .nil))
      = .ok (.pdict ((PDict.cons "a" (.pint 1) PDict.nil).set1 "b" (.pint 7)))
    ∧ update_dict (.pdict (.cons "a" (.pint 1) .nil))
        (.pdict (.cons "a" (.pdict (.cons "b" (.pint 2) .nil)) .nil)) = .error () :=
  ⟨((update_dict_deep_update.2.1 (.cons "a" (.pdict (.cons "x" (.pint 1) .nil)) .nil) "a"
      (.cons "x" (.pint 1) .nil) (.cons "x" (.pint 2) .nil) rfl).1
      (.pdict (.cons "x" (.pint 2) .nil)) rfl),
   update_dict_deep_update.2.2.1 (.cons "a" (.pint 1) .nil) "b" (.pint 7) (by decide),
   update_dict_deep_update.2.2.2.2 (.cons "a" (.pint 1) .nil) "a" "b" (.pint 1) (.pint 2)
     .nil rfl (by decide)⟩

/-! ### np.where and round-trip lemmas -/

lemma npWhereAux_mem : ∀ (flags : List Int) (s : Nat) (x : Int),
    x ∈ npWhereAux flags s ↔ ∃ j, flags.get? j = some 1 ∧ x = Int.ofNat (s + j) := by
  intro flags
  induction flags with
  | nil => intro s x; simp [npWhereAux]
  | cons f rest ih =>
      intro s x
      by_cases hf : f = 1
      · subst hf
        rw [npWhereAux, if_pos rfl, List.mem_cons, ih (s + 1)]
        constructor
        · rintro (rfl | ⟨j, hj, rfl⟩)
          · exact ⟨0, by simp⟩
          · exact ⟨j + 1, by simpa using hj, congrArg Int.ofNat (by omega)⟩
        · rintro ⟨j, hj, rfl⟩
          cases j with
          | zero => left; simp
          | succ j' =>
              right
              exact ⟨j', by simpa using hj, congrArg Int.ofNat (by omega)⟩
      · rw [npWhereAux, if_neg hf, ih (s + 1)]
        constructor
        · rintro ⟨j, hj, rfl⟩
          exact ⟨j + 1, by simpa using hj, congrArg Int.ofNat (by omega)⟩
        · rintro ⟨j, hj, rfl⟩
          cases j with
          | zero =>
              simp only [List.get?_cons_zero, Option.some.injEq] at hj
              exact absurd hj hf
          | succ j' =>
              exact ⟨j', by simpa using hj, congrArg Int.ofNat (by omega)⟩

lemma npWhereEq1_mem_bound {flags : List Int} {x : Int} (h : x ∈ npWhereEq1 flags) :
    ∃ j, j < flags.length ∧ flags.get? j = some 1 ∧ x = Int.ofNat j := by
  obtain ⟨j, hj, rfl⟩ := (npWhereAux_mem flags 0 x).mp h
  obtain ⟨hlt, -⟩ := List.get?_eq_some.mp hj
  exact ⟨j, hlt, hj, congrArg Int.ofNat (by omega)⟩

lemma npWhereEq1_flags_mem (n : Nat) (acc : List Int) (x : Int) :
    x ∈ npWhereEq1 ((List.range n).map
        (fun j => if Int.ofNat j ∈ acc then (1:Int) else 0)) ↔
      ∃ j, j < n ∧ Int.ofNat j ∈ acc ∧ x = Int.ofNat j := by
  rw [npWhereEq1, npWhereAux_mem]
  constructor
  · rintro ⟨j, hj, rfl⟩
    rw [List.get?_map] at hj
    by_cases hjn : j < n
    · rw [List.get?_range hjn] at hj
      simp only [Option.map_some'] at hj
      by_cases hm : Int.ofNat j ∈ acc
      · exact ⟨j, hjn, hm, congrArg Int.ofNat (by omega)⟩
      · rw [if_neg hm] at hj
        simp at hj
    · rw [List.get?_eq_none.mpr (by simpa [List.length_range] using Nat.le_of_not_lt hjn)] at hj
      simp at hj
  · rintro ⟨j, hjn, hm, rfl⟩
    refine ⟨j, ?_, congrArg Int.ofNat (by omega)⟩
    rw [List.get?_map, List.get?_range hjn]
    simp only [Option.map_some', if_pos hm]

lemma write_rows_ids {M C : Type} [Inhabited M] [Inhabited C] (m : SegModel M C) :
    (write_segmentation_rows m).map (fun r => r.id) = m.roi_ids := by
  rw [write_segmentation_rows, List.map_map]
  have : ((fun r : PsRow M C => r.id) ∘ (fun p : Nat × Int =>
      ({ id := p.2
         image_mask := m.image_masks.getD p.1 default
         roiCentroid := m.roi_locations.getD p.1 default
         accepted := if p.2 ∈ m.accepted_list then 1 else 0 } : PsRow M C)))
      = fun p : Nat × Int => p.2 := rfl
  rw [this, List.enum_map_snd]

lemma write_rows_accepted {M C : Type} [Inhabited M] [Inhabited C] (m : SegModel M C) :
    (write_segmentation_rows m).map (fun r => r.accepted)
      = m.roi_ids.map (fun r => if r ∈ m.accepted_list then (1:Int) else 0) := by
  rw [write_segmentation_rows, List.map_map]
  have : ((fun r : PsRow M C => r.accepted) ∘ (fun p : Nat × Int =>
      ({ id := p.2
         image_mask := m.image_masks.getD p.1 default
         roiCentroid := m.roi_locations.getD p.1 default
         accepted := if p.2 ∈ m.accepted_list then 1 else 0 } : PsRow M C)))
      = (fun r : Int => if r ∈ m.accepted_list then (1:Int) else 0) ∘ Prod.snd := rfl
  rw [this, ← List.map_map, List.enum_map_snd]

lemma read_back_accepted_mem {M C : Type} [Inhabited M] [Inhabited C] (m : SegModel M C)
    (n : Nat) (hids : m.roi_ids = (List.range n).map Int.ofNat)
    (hsub : ∀ a ∈ m.accepted_list, a ∈ m.roi_ids) (x : Int) :
    x ∈ (nwb_read_back (write_segmentation_rows m)).get_accepted_list
      ↔ x ∈ m.accepted_list := by
  have hflags : (write_segmentation_rows m).map (fun r => r.accepted)
      = (List.range n).map (fun j => if Int.ofNat j ∈ m.accepted_list then (1:Int) else 0) := by
    rw [write_rows_accepted, hids, List.map_map]
    rfl
  show x ∈ npWhereEq1 ((write_segmentation_rows m).map (fun r => r.accepted))
      ↔ x ∈ m.accepted_list
  rw [hflags, npWhereEq1_flags_mem]
  constructor
  · rintro ⟨j, _, hm, rfl⟩
    exact hm
  · intro hx
    have := hsub x hx
    rw [hids] at this
    obtain ⟨j, hj, rfl⟩ := List.mem_map.mp this
    exact ⟨j, List.mem_range.mp hj, hx, rfl⟩

lemma read_back_rejected_mem {M C : Type} [Inhabited M] [Inhabited C] (m : SegModel M C)
    (n : Nat) (hids : m.roi_ids = (List.range n).map Int.ofNat)
    (hsub : ∀ a ∈ m.accepted_list, a ∈ m.roi_ids) (x : Int) :
    x ∈ (nwb_read_back (write_segmentation_rows m)).get_rejected_list
      ↔ (x ∈ m.roi_ids ∧ x ∉ m.accepted_list) := by
  rw [NwbSegState.get_rejected_list, List.mem_filter]
  have hroi : (nwb_read_back (write_segmentation_rows m)).get_roi_ids = m.roi_ids :=
    write_rows_ids m
  rw [hroi]
  constructor
  · rintro ⟨hin, hdec⟩
    refine ⟨hin, ?_⟩
    intro hacc
    exact (of_decide_eq_true hdec) ((read_back_accepted_mem m n hids hsub x).mpr hacc)
  · rintro ⟨hin, hacc⟩
    refine ⟨hin, decide_eq_true ?_⟩
    intro hmem
    exact hacc ((read_back_accepted_mem m n hids hsub x).mp hmem)

/-- C2 counterexample: for a model with roi ids [10, 20] and accepted list
[10], writing then reading back does not preserve the accepted partition: the
read adapter's accepted list is np.where(flags == 1)[0] = [0] — row positions,
not ids — so 10 is in the model's accepted list but not in the read-back one. -/
theorem write_segmentation_roundtrip_partition_cex :
    (nwb_read_back (write_segmentation_rows
        (⟨[10, 20], [10], [(), ()], [(), ()]⟩ : SegModel Unit Unit))).get_accepted_list = [0]
    ∧ ¬ (((10:Int) ∈ (nwb_read_back (write_segmentation_rows
          (⟨[10, 20], [10], [(), ()], [(), ()]⟩ : SegModel Unit Unit))).get_accepted_list)
        ↔ (10:Int) ∈ (⟨[10, 20], [10], [(), ()], [(), ()]⟩ : SegModel Unit Unit).accepted_list) := by
  constructor <;> decide

/-- C2 (amended): `write_segmentation` inserts one plane-segmentation row per
ROI id in the model's id order, and reading the written file back yields the
same roi_ids in the same order, for every model; the accepted/rejected
partition also reads back identically provided the model's roi ids are exactly
0..M-1, because the read adapter's accepted list holds row positions
(np.where(Accepted == 1)[0]), which coincide with ids only then. -/
theorem write_segmentation_roundtrip {M C : Type} [Inhabited M] [Inhabited C]
    (m : SegModel M C) :
    ((nwb_read_back (write_segmentation_rows m)).get_roi_ids = m.roi_ids
     ∧ (write_segmentation_rows m).length = m.roi_ids.length
     ∧ (write_segmentation_rows m).map (fun r => r.id) = m.roi_ids)
    ∧ (∀ n : Nat, m.roi_ids = (List.range n).map Int.ofNat →
        (∀ a ∈ m.accepted_list, a ∈ m.roi_ids) →
        (∀ x : Int, x ∈ (nwb_read_back (write_segmentation_rows m)).get_accepted_list
            ↔ x ∈ m.accepted_list)
        ∧ (∀ x : Int, x ∈ (nwb_read_back (write_segmentation_rows m)).get_rejected_list
            ↔ (x ∈ m.roi_ids ∧ x ∉ m.accepted_list))) := by
  refine ⟨⟨write_rows_ids m, ?_, write_rows_ids m⟩, ?_⟩
  · rw [write_segmentation_rows, List.length_map, List.enum_length]
  · intro n hids hsub
    exact ⟨fun x => read_back_accepted_mem m n hids hsub x,
           fun x => read_back_rejected_mem m n hids hsub x⟩

/-- C2 witness: a model with ids [0, 1] and accepted [0] round-trips its
partition. -/
theorem write_segmentation_roundtrip_witness :
    (0:Int) ∈ (nwb_read_back (write_segmentation_rows
        (⟨[0, 1], [0], [(), ()], [(), ()]⟩ : SegModel Unit Unit))).get_accepted_list
      ↔ (0:Int) ∈ (⟨[0, 1], [0], [(), ()], [(), ()]⟩ : SegModel Unit Unit).accepted_list :=
  ((write_segmentation_roundtrip
      (⟨[0, 1], [0], [(), ()], [(), ()]⟩ : SegModel Unit Unit)).2 2
    (by decide) (by decide)).1 0

/-- C3 counterexample: for the NWB read adapter with stored roi ids [5] and
Accepted flags [1], the accepted list is [0] (row positions) and the rejected
list is [5], so their union {0, 5} is not the set of roi ids {5}. -/
theorem accepted_rejected_union_cex :
    ¬ (∀ x : Int, (x ∈ (NwbSegState.mk [5] (some [1])).get_accepted_list
        ∨ x ∈ (NwbSegState.mk [5] (some [1])).get_rejected_list)
        ↔ x ∈ (NwbSegState.mk [5] (some [1])).get_roi_ids) := by
  intro h
  exact absurd ((h 0).mp (Or.inl (by decide))) (by decide)

/-- C3 (amended): accepted and rejected lists are always disjoint and always
jointly cover the roi ids, for both adapters; the full equality
accepted ∪ rejected = roi_ids holds for every constructed
SimaSegmentationExtractor, and for the NWB adapter holds whenever the stored
roi ids are exactly 0..n-1 (with the Accepted column of table length) — the
NWB accepted list holds row positions, which can fall outside roi_ids
otherwise. -/
theorem accepted_rejected_partition :
    (∀ (s : NwbSegState) (x : Int),
        ¬ (x ∈ s.get_accepted_list ∧ x ∈ s.get_rejected_list))
    ∧ (∀ (s : NwbSegState) (x : Int), x ∈ s.get_roi_ids →
        x ∈ s.get_accepted_list ∨ x ∈ s.get_rejected_list)
    ∧ (∀ (s : NwbSegState) (n : Nat), s.roi_idx = (List.range n).map Int.ofNat →
        (∀ flags, s.accepted_flags = some flags → flags.length = n) →
        ∀ x : Int, (x ∈ s.get_accepted_list ∨ x ∈ s.get_rejected_list)
          ↔ x ∈ s.get_roi_ids)
    ∧ (∀ (mask_rois resp_frames : Nat) (x : Int),
        ((x ∈ (sima_init mask_rois resp_frames).accepted_list
          ∨ x ∈ (sima_init mask_rois resp_frames).rejected_list)
          ↔ x ∈ (sima_init mask_rois resp_frames).get_roi_ids)
        ∧ ¬ (x ∈ (sima_init mask_rois resp_frames).accepted_list
          ∧ x ∈ (sima_init mask_rois resp_frames).rejected_list)) := by
  have hdisj : ∀ (s : NwbSegState) (x : Int),
      ¬ (x ∈ s.get_accepted_list ∧ x ∈ s.get_rejected_list) := by
    rintro s x ⟨ha, hr⟩
    rw [NwbSegState.get_rejected_list, List.mem_filter] at hr
    exact (of_decide_eq_true hr.2) ha
  have hcover : ∀ (s : NwbSegState) (x : Int), x ∈ s.get_roi_ids →
      x ∈ s.get_accepted_list ∨ x ∈ s.get_rejected_list := by
    intro s x hx
    by_cases ha : x ∈ s.get_accepted_list
    · exact Or.inl ha
    · refine Or.inr ?_
      rw [NwbSegState.get_rejected_list, List.mem_filter]
      exact ⟨hx, decide_eq_true ha⟩
  refine ⟨hdisj, hcover, ?_, ?_⟩
  · intro s n hids hlen x
    constructor
    · rintro (ha | hr)
      · rw [NwbSegState.get_roi_ids, hids]
        cases hfl : s.accepted_flags with
        | none =>
            rw [NwbSegState.get_accepted_list, hfl] at ha
            rw [NwbSegState.get_num_rois, hids] at ha
            simpa [List.length_map, List.length_range] using ha
        | some flags =>
            rw [NwbSegState.get_accepted_list, hfl] at ha
            obtain ⟨j, hj, _, rfl⟩ := npWhereEq1_mem_bound ha
            rw [hlen flags hfl] at hj
            exact List.mem_map.mpr ⟨j, List.mem_range.mpr hj, rfl⟩
      · rw [NwbSegState.get_rejected_list, List.mem_filter] at hr
        exact hr.1
    · exact hcover s x
  · intro mask_rois resp_frames x
    have hacc : (sima_init mask_rois resp_frames).accepted_list
        = (List.range mask_rois).map Int.ofNat := rfl
    have hids : (sima_init mask_rois resp_frames).get_roi_ids
        = (List.range mask_rois).map Int.ofNat := rfl
    have hrej : ∀ y : Int, y ∉ (sima_init mask_rois resp_frames).rejected_list := by
      intro y hy
      rw [SimaState.rejected_list, List.mem_filter] at hy
      exact (of_decide_eq_true hy.2) (by rw [hacc]; exact hy.1)
    constructor
    · constructor
      · rintro (ha | hr)
        · rw [hids]; rw [hacc] at ha; exact ha
        · exact absurd hr (hrej x)
      · intro hx
        rw [hids] at hx
        exact Or.inl (by rw [hacc]; exact hx)
    · rintro ⟨-, hr⟩
      exact hrej x hr

/-- C3 witness: the union law applied to a concrete NWB state with ids [0, 1]
and flags [1, 0], and the covering part at a concrete member. -/
theorem accepted_rejected_partition_witness :
    ((0:Int) ∈ (NwbSegState.mk [0, 1] (some [1, 0])).get_accepted_list
      ∨ (0:Int) ∈ (NwbSegState.mk [0, 1] (some [1, 0])).get_rejected_list)
    ∧ (((0:Int) ∈ (NwbSegState.mk [0, 1] (some [1, 0])).get_accepted_list
        ∨ (0:Int) ∈ (NwbSegState.mk [0, 1] (some [1, 0])).get_rejected_list)
       ↔ (0:Int) ∈ (NwbSegState.mk [0, 1] (some [1, 0])).get_roi_ids) :=
  ⟨accepted_rejected_partition.2.1 (NwbSegState.mk [0, 1] (some [1, 0])) 0 (by decide),
   accepted_rejected_partition.2.2.1 (NwbSegState.mk [0, 1] (some [1, 0])) 2 (by decide)
     (fun flags h => by cases h; rfl) 0⟩
